import Mathlib

/-!
Shallow embedding of the `grab` generic utility library (grab.go) and proofs
of its specified properties.

Modelling conventions:
* A Go pointer `*T` is `Option T` (`none` = nil).  The functions here never
  mutate through pointers, so value semantics are faithful.
* A Go slice `[]T` is `GoSlice T := Option (List T)`: `none` is the nil
  slice, `some l` a non-nil slice whose elements are `l`.  The distinction
  matters because the spec talks about nil versus empty-but-non-nil results.
* Go's zero value of a type is `default` from an `Inhabited` instance.
* The caller-supplied page-fetch function is impure in Go; within a single
  sequential run of `AllPages` its behaviour is fully described by what it
  returns at each call, so it is modelled as a pure function of the call
  index and the token it receives (plus the opaque context, forwarded
  unchanged).  The unbounded `for` loop is modelled with explicit fuel:
  `none` means the fuel was exhausted before the loop finished.
-/

namespace Grab

/-- A Go slice value: `none` is the nil slice, `some l` is a non-nil slice
with elements `l` (possibly empty). -/
abbrev GoSlice (T : Type) := Option (List T)

/-- The elements of a Go slice; the nil slice and a non-nil empty slice both
have no elements. -/
def elems {T : Type} (s : GoSlice T) : List T := s.getD []

/-- Go's `append(s, xs...)`: appending no elements to a nil slice leaves it
nil; in every other case the result is a non-nil slice holding the
concatenated elements. -/
def goAppend {T : Type} (s : GoSlice T) (xs : List T) : GoSlice T :=
  match s, xs with
  | none, [] => none
  | none, x :: rest => some (x :: rest)
  | some l, xs => some (l ++ xs)

/-- `Ptr` (grab.go lines 20-22): returns a pointer to a fresh copy of the
value. -/
def Ptr {T : Type} (o : T) : Option T := some o

/-- `Value` (grab.go lines 40-46): dereferences a pointer, returning the zero
value of the type when the pointer is nil. -/
def Value {T : Type} [Inhabited T] (o : Option T) : T :=
  match o with
  | none => default
  | some v => v

/-- `If` (grab.go lines 64-69). -/
def If {T : Type} (condition : Bool) (ifTrue ifFalse : T) : T :=
  if condition then ifTrue else ifFalse

/-- `FirstNonZero` (grab.go lines 89-97): scans the arguments left to right
and returns the first one differing from the zero value, or the zero value
if none does. -/
def FirstNonZero {T : Type} [DecidableEq T] [Inhabited T] : List T → T
  | [] => default
  | elem :: rest => if elem ≠ (default : T) then elem else FirstNonZero rest

/-- `IsZero` (grab.go lines 115-118): whether the value equals its type's
zero value. -/
def IsZero {T : Type} [DecidableEq T] [Inhabited T] (value : T) : Bool :=
  decide (value = (default : T))

/-- The triple returned by one call of the page-fetch function
(grab.go line 140): the page's items, the next pagination token, and an
optional error. -/
structure PageResult (T Token E : Type) where
  items : GoSlice T
  newToken : Option Token
  err : Option E

/-- The loop of `AllPages` (grab.go lines 144-156), instrumented with fuel
and a trace of the tokens passed to the successive fetch calls.  Returns
`none` when the fuel runs out before the loop finishes, and otherwise
`some (calls, allItems, err)` where `calls` lists, in order, the token each
fetch invocation received. -/
def allPagesLoop {T Token E Ctx : Type} [DecidableEq Token] [Inhabited Token]
    (fetchPage : Ctx → Nat → Option Token → PageResult T Token E) (ctx : Ctx) :
    Nat → Nat → Option Token → GoSlice T →
      Option (List (Option Token) × GoSlice T × Option E)
  | 0, _, _, _ => none
  | fuel + 1, i, nextToken, allItems =>
    let r := fetchPage ctx i nextToken
    match r.err with
    | some e => some ([nextToken], none, some e)
    | none =>
      let allItems2 := goAppend allItems (elems r.items)
      match r.newToken with
      | none => some ([nextToken], allItems2, none)
      | some t =>
        if IsZero t then some ([nextToken], allItems2, none)
        else
          match allPagesLoop fetchPage ctx fuel (i + 1) (some t) allItems2 with
          | none => none
          | some (calls, res, err) => some (nextToken :: calls, res, err)

/-- `AllPages` (grab.go lines 140-159): starts the loop with a nil
accumulated slice and an absent token. -/
def AllPages {T Token E Ctx : Type} [DecidableEq Token] [Inhabited Token]
    (ctx : Ctx) (fetchPage : Ctx → Nat → Option Token → PageResult T Token E)
    (fuel : Nat) : Option (List (Option Token) × GoSlice T × Option E) :=
  allPagesLoop fetchPage ctx fuel 0 none none

/-- `Map` (grab.go lines 182-188): starts from a nil result slice and
appends `fn item` for each element of the input slice. -/
def Map {T F : Type} (items : GoSlice T) (fn : T → F) : GoSlice F :=
  (elems items).foldl (fun result item => goAppend result [fn item]) none

/-- The token the `k`-th fetch call would receive were the loop never to
stop: the first call gets an absent token, every later call the previous
call's next-token. -/
def trajTok {T Token E Ctx : Type}
    (fetchPage : Ctx → Nat → Option Token → PageResult T Token E) (ctx : Ctx) :
    Nat → Option Token
  | 0 => none
  | k + 1 => (fetchPage ctx k (trajTok fetchPage ctx k)).newToken

/-- Whether the `k`-th fetch call along the trajectory is terminal: it
reports an error, or its next-token is absent or zero-valued. -/
def terminalAt {T Token E Ctx : Type} [DecidableEq Token] [Inhabited Token]
    (fetchPage : Ctx → Nat → Option Token → PageResult T Token E) (ctx : Ctx)
    (k : Nat) : Bool :=
  let r := fetchPage ctx k (trajTok fetchPage ctx k)
  r.err.isSome || (match r.newToken with
    | none => true
    | some t => IsZero t)

/-- The item lists the successive fetch calls return, given the trace of
tokens they received and the index of the first call. -/
def pageItems {T Token E Ctx : Type}
    (fetchPage : Ctx → Nat → Option Token → PageResult T Token E) (ctx : Ctx) :
    Nat → List (Option Token) → List (List T)
  | _, [] => []
  | i, tok :: rest =>
    elems (fetchPage ctx i tok).items :: pageItems fetchPage ctx (i + 1) rest

/-- Elements of a Go append are the concatenation of the elements. -/
theorem elems_goAppend {T : Type} (s : GoSlice T) (xs : List T) :
    elems (goAppend s xs) = elems s ++ xs := by
  cases s with
  | none => cases xs <;> simp [goAppend, elems]
  | some l => simp [goAppend, elems]

/-- A loop invocation whose fetch call errors stops at once: the trace holds
just that call, the accumulator is discarded, and the error comes back
unchanged (grab.go lines 146-148). -/
theorem allPagesLoop_err_step {T Token E Ctx : Type}
    [DecidableEq Token] [Inhabited Token]
    (fetchPage : Ctx → Nat → Option Token → PageResult T Token E) (ctx : Ctx)
    (fuel i : Nat) (tok : Option Token) (acc : GoSlice T) (e : E)
    (h : (fetchPage ctx i tok).err = some e) :
    allPagesLoop fetchPage ctx (fuel + 1) i tok acc = some ([tok], none, some e) := by
  simp only [allPagesLoop, h]

/-- A loop invocation whose fetch call succeeds with an absent or zero-valued
next-token stops, returning the extended accumulator and no error
(grab.go lines 152-154, 158). -/
theorem allPagesLoop_stop_step {T Token E Ctx : Type}
    [DecidableEq Token] [Inhabited Token]
    (fetchPage : Ctx → Nat → Option Token → PageResult T Token E) (ctx : Ctx)
    (fuel i : Nat) (tok : Option Token) (acc : GoSlice T)
    (he : (fetchPage ctx i tok).err = none)
    (ht : (fetchPage ctx i tok).newToken = none ∨
      ∃ t, (fetchPage ctx i tok).newToken = some t ∧ IsZero t = true) :
    allPagesLoop fetchPage ctx (fuel + 1) i tok acc =
      some ([tok], goAppend acc (elems (fetchPage ctx i tok).items), none) := by
  rcases ht with ht | ⟨t, ht, hz⟩
  · simp only [allPagesLoop, he, ht]
  · simp only [allPagesLoop, he, ht, hz, if_true]

/-- A loop invocation whose fetch call succeeds with a present, non-zero
next-token continues with that token, the extended accumulator, and the next
call index (grab.go lines 152-156). -/
theorem allPagesLoop_continue_step {T Token E Ctx : Type}
    [DecidableEq Token] [Inhabited Token]
    (fetchPage : Ctx → Nat → Option Token → PageResult T Token E) (ctx : Ctx)
    (fuel i : Nat) (tok : Option Token) (acc : GoSlice T) (t : Token)
    (he : (fetchPage ctx i tok).err = none)
    (ht : (fetchPage ctx i tok).newToken = some t)
    (hz : IsZero t = false) :
    allPagesLoop fetchPage ctx (fuel + 1) i tok acc =
      Option.map (fun out => (tok :: out.1, out.2.1, out.2.2))
        (allPagesLoop fetchPage ctx fuel (i + 1) (some t)
          (goAppend acc (elems (fetchPage ctx i tok).items))) := by
  cases hrec : allPagesLoop fetchPage ctx fuel (i + 1) (some t)
      (goAppend acc (elems (fetchPage ctx i tok).items)) with
  | none =>
    simp only [allPagesLoop, he, ht, hz, Bool.false_eq_true, if_false, hrec]
    rfl
  | some out =>
    obtain ⟨calls, res, err⟩ := out
    simp only [allPagesLoop, he, ht, hz, Bool.false_eq_true, if_false, hrec]
    rfl

/-- Concrete fetch function that always errors, for witnesses. -/
def errFetch : Unit → Nat → Option Nat → PageResult String Nat String :=
  fun _ _ _ => ⟨none, none, some "boom"⟩

/-- Concrete fetch function returning an empty first page with an absent
token and no error, for witnesses. -/
def emptyFetch : Unit → Nat → Option Nat → PageResult String Nat String :=
  fun _ _ _ => ⟨none, none, none⟩

/-- Concrete fetch function serving pages `["a","b"]` then `["c","d"]` as
the token advances `none → 1 → none`, for witnesses. -/
def twoPageFetch : Unit → Nat → Option Nat → PageResult String Nat String :=
  fun _ _ tok =>
    match tok with
    | none => ⟨some ["a", "b"], some 1, none⟩
    | some 1 => ⟨some ["c", "d"], none, none⟩
    | some _ => ⟨none, none, some "unexpected token"⟩

end Grab

open Grab

/-- Claim C1: whenever a fetch invocation returns a non-nil error, the
aggregation stops immediately with the trace holding only that one call, a
nil item slice (no items, none from earlier pages), and that exact error;
in particular when the first call errors, `AllPages` invokes `fetchPage`
exactly once and returns the nil slice and that error. -/
theorem allPages_error_propagation {T Token E Ctx : Type}
    [DecidableEq Token] [Inhabited Token]
    (fetchPage : Ctx → Nat → Option Token → PageResult T Token E) (ctx : Ctx) :
    (∀ (fuel i : Nat) (tok : Option Token) (acc : GoSlice T) (e : E),
       (fetchPage ctx i tok).err = some e →
       allPagesLoop fetchPage ctx (fuel + 1) i tok acc = some ([tok], none, some e)) ∧
    (∀ (fuel : Nat) (e : E), 0 < fuel → (fetchPage ctx 0 none).err = some e →
       AllPages ctx fetchPage fuel =
         some ([(none : Option Token)], (none : GoSlice T), some e)) := by
  constructor
  · intro fuel i tok acc e h
    exact allPagesLoop_err_step fetchPage ctx fuel i tok acc e h
  · intro fuel e hfuel h
    cases fuel with
    | zero => omega
    | succ fuel =>
      exact allPagesLoop_err_step fetchPage ctx fuel 0 none none e h

/-- Witness for C1: a fetch function that errors on its first call makes
`AllPages` return the nil slice and that exact error after exactly one
invocation. -/
theorem allPages_error_propagation_witness :
    AllPages () errFetch 1 =
      some ([(none : Option Nat)], (none : GoSlice String), some "boom") :=
  (allPages_error_propagation errFetch ()).2 1 "boom" (by decide) rfl

/-- Claim C2: with no error reported, a loop iteration stops and returns the
accumulated items with no error exactly when the fetched next-token is
absent or equals the zero value of `Token`; with a present non-zero token it
continues with that token. -/
theorem allPages_termination_condition {T Token E Ctx : Type}
    [DecidableEq Token] [Inhabited Token]
    (fetchPage : Ctx → Nat → Option Token → PageResult T Token E) (ctx : Ctx)
    (fuel i : Nat) (tok : Option Token) (acc : GoSlice T)
    (he : (fetchPage ctx i tok).err = none) :
    (((fetchPage ctx i tok).newToken = none ∨
        ∃ t, (fetchPage ctx i tok).newToken = some t ∧ IsZero t = true) →
      allPagesLoop fetchPage ctx (fuel + 1) i tok acc =
        some ([tok], goAppend acc (elems (fetchPage ctx i tok).items), none)) ∧
    (∀ t, (fetchPage ctx i tok).newToken = some t → IsZero t = false →
      allPagesLoop fetchPage ctx (fuel + 1) i tok acc =
        Option.map (fun out => (tok :: out.1, out.2.1, out.2.2))
          (allPagesLoop fetchPage ctx fuel (i + 1) (some t)
            (goAppend acc (elems (fetchPage ctx i tok).items)))) := by
  constructor
  · intro ht
    exact allPagesLoop_stop_step fetchPage ctx fuel i tok acc he ht
  · intro t ht hz
    exact allPagesLoop_continue_step fetchPage ctx fuel i tok acc t he ht hz

/-- Elements accumulated by a successful run of the loop: the accumulator it
started from followed by the concatenation, in call order, of the item lists
the fetch calls in its trace returned. -/
theorem allPagesLoop_ok_elems {T Token E Ctx : Type}
    [DecidableEq Token] [Inhabited Token]
    (fetchPage : Ctx → Nat → Option Token → PageResult T Token E) (ctx : Ctx) :
    ∀ (fuel i : Nat) (tok : Option Token) (acc : GoSlice T)
      (calls : List (Option Token)) (res : GoSlice T),
      allPagesLoop fetchPage ctx fuel i tok acc = some (calls, res, none) →
      elems res = elems acc ++ (pageItems fetchPage ctx i calls).flatten := by
  intro fuel
  induction fuel with
  | zero => intro i tok acc calls res h; exact absurd h (by simp [allPagesLoop])
  | succ fuel ih =>
    intro i tok acc calls res h
    cases herr : (fetchPage ctx i tok).err with
    | some e =>
      rw [allPagesLoop_err_step fetchPage ctx fuel i tok acc e herr] at h
      simp at h
    | none =>
      cases ht : (fetchPage ctx i tok).newToken with
      | none =>
        rw [allPagesLoop_stop_step fetchPage ctx fuel i tok acc herr (Or.inl ht)] at h
        simp only [Option.some.injEq, Prod.mk.injEq] at h
        obtain ⟨hcalls, hres, -⟩ := h
        subst hcalls
        rw [← hres, elems_goAppend]
        simp [pageItems]
      | some t =>
        cases hz : IsZero t with
        | true =>
          rw [allPagesLoop_stop_step fetchPage ctx fuel i tok acc herr
            (Or.inr ⟨t, ht, hz⟩)] at h
          simp only [Option.some.injEq, Prod.mk.injEq] at h
          obtain ⟨hcalls, hres, -⟩ := h
          subst hcalls
          rw [← hres, elems_goAppend]
          simp [pageItems]
        | false =>
          rw [allPagesLoop_continue_step fetchPage ctx fuel i tok acc t herr ht hz] at h
          cases hrec : allPagesLoop fetchPage ctx fuel (i + 1) (some t)
              (goAppend acc (elems (fetchPage ctx i tok).items)) with
          | none => rw [hrec] at h; simp at h
          | some out =>
            obtain ⟨calls2, res2, err2⟩ := out
            rw [hrec] at h
            simp only [Option.map, Option.some.injEq, Prod.mk.injEq] at h
            obtain ⟨hcalls, hres, herr2⟩ := h
            subst hcalls
            subst herr2
            have := ih (i + 1) (some t)
              (goAppend acc (elems (fetchPage ctx i tok).items)) calls2 res2 hrec
            rw [← hres, this, elems_goAppend]
            simp [pageItems, List.append_assoc]

/-- Trace facts of a finished loop: its first call received the token the
loop started with, and every later call received exactly the non-nil,
non-zero next-token produced by the call before it. -/
theorem allPagesLoop_calls_spec {T Token E Ctx : Type}
    [DecidableEq Token] [Inhabited Token]
    (fetchPage : Ctx → Nat → Option Token → PageResult T Token E) (ctx : Ctx) :
    ∀ (fuel i : Nat) (tok : Option Token) (acc : GoSlice T)
      (calls : List (Option Token)) (res : GoSlice T) (err : Option E),
      allPagesLoop fetchPage ctx fuel i tok acc = some (calls, res, err) →
      calls.head? = some tok ∧
      ∀ (j : Nat) (t1 t2 : Option Token), calls[j]? = some t1 →
        calls[j + 1]? = some t2 →
        ∃ t, t2 = some t ∧ IsZero t = false ∧
          (fetchPage ctx (i + j) t1).newToken = some t := by
  intro fuel
  induction fuel with
  | zero => intro i tok acc calls res err h; exact absurd h (by simp [allPagesLoop])
  | succ fuel ih =>
    intro i tok acc calls res err h
    cases herr : (fetchPage ctx i tok).err with
    | some e =>
      rw [allPagesLoop_err_step fetchPage ctx fuel i tok acc e herr] at h
      simp only [Option.some.injEq, Prod.mk.injEq] at h
      obtain ⟨hcalls, -, -⟩ := h
      subst hcalls
      refine ⟨rfl, ?_⟩
      intro j t1 t2 h1 h2
      simp at h2
    | none =>
      cases ht : (fetchPage ctx i tok).newToken with
      | none =>
        rw [allPagesLoop_stop_step fetchPage ctx fuel i tok acc herr (Or.inl ht)] at h
        simp only [Option.some.injEq, Prod.mk.injEq] at h
        obtain ⟨hcalls, -, -⟩ := h
        subst hcalls
        refine ⟨rfl, ?_⟩
        intro j t1 t2 h1 h2
        simp at h2
      | some t =>
        cases hz : IsZero t with
        | true =>
          rw [allPagesLoop_stop_step fetchPage ctx fuel i tok acc herr
            (Or.inr ⟨t, ht, hz⟩)] at h
          simp only [Option.some.injEq, Prod.mk.injEq] at h
          obtain ⟨hcalls, -, -⟩ := h
          subst hcalls
          refine ⟨rfl, ?_⟩
          intro j t1 t2 h1 h2
          simp at h2
        | false =>
          rw [allPagesLoop_continue_step fetchPage ctx fuel i tok acc t herr ht hz] at h
          cases hrec : allPagesLoop fetchPage ctx fuel (i + 1) (some t)
              (goAppend acc (elems (fetchPage ctx i tok).items)) with
          | none => rw [hrec] at h; simp at h
          | some out =>
            obtain ⟨calls2, res2, err2⟩ := out
            rw [hrec] at h
            simp only [Option.map, Option.some.injEq, Prod.mk.injEq] at h
            obtain ⟨hcalls, -, -⟩ := h
            subst hcalls
            obtain ⟨hhead, hpairs⟩ := ih (i + 1) (some t)
              (goAppend acc (elems (fetchPage ctx i tok).items)) calls2 res2 err2 hrec
            refine ⟨rfl, ?_⟩
            intro j t1 t2 h1 h2
            cases j with
            | zero =>
              simp only [List.getElem?_cons_zero, Option.some.injEq] at h1
              subst h1
              have h2' : calls2[0]? = some t2 := by
                simpa using h2
              rw [← List.head?_eq_getElem?] at h2'
              rw [hhead] at h2'
              have ht2 : t2 = some t := (Option.some.inj h2').symm
              exact ⟨t, ht2, hz, by simpa using ht⟩
            | succ j =>
              have h1' : calls2[j]? = some t1 := by simpa using h1
              have h2' : calls2[j + 1]? = some t2 := by simpa using h2
              obtain ⟨t', ht2, hz', hnext⟩ := hpairs j t1 t2 h1' h2'
              refine ⟨t', ht2, hz', ?_⟩
              have : i + (j + 1) = i + 1 + j := by omega
              rw [this]
              exact hnext

/-- Witness for C2: on the concrete two-page fetch, the second call (absent
next-token) stops the loop with the accumulated items, and the first call
(next-token 1, non-zero) continues with token 1. -/
theorem allPages_termination_condition_witness :
    (allPagesLoop twoPageFetch () 1 1 (some 1) (some ["a", "b"]) =
      some ([some 1], some ["a", "b", "c", "d"], none)) ∧
    (allPagesLoop twoPageFetch () 2 0 none (none : GoSlice String) =
      Option.map (fun out => ((none : Option Nat) :: out.1, out.2.1, out.2.2))
        (allPagesLoop twoPageFetch () 1 1 (some 1) (some ["a", "b"]))) := by
  constructor
  · exact (allPages_termination_condition twoPageFetch () 0 1 (some 1)
      (some ["a", "b"]) rfl).1 (Or.inl rfl)
  · exact (allPages_termination_condition twoPageFetch () 1 0 none none rfl).2
      1 rfl rfl

/-- Claim C7: the pointer/value conversion pair round-trips: for every value
`v` of every type, `Value (Ptr v) = v`. -/
theorem ptr_value_roundtrip {T : Type} [Inhabited T] (v : T) :
    Grab.Value (Grab.Ptr v) = v := rfl

/-- Claim C8: `Value` is total and never errors: a nil pointer yields the
zero value of the type and a non-nil pointer yields the value it points
to. -/
theorem value_total {T : Type} [Inhabited T] :
    Grab.Value (none : Option T) = (default : T) ∧
      ∀ v : T, Grab.Value (some v) = v :=
  ⟨rfl, fun _ => rfl⟩

/-- Claim C3, counterexample: when the first (and only) fetch call returns an
empty item sequence, an absent token, and no error, the accumulated slice
`AllPages` returns is the nil slice, not a non-nil empty collection as the
claim states. -/
theorem allPages_zero_pages_counterexample :
    AllPages () emptyFetch 1 =
      some ([(none : Option Nat)], (none : GoSlice String), none) ∧
    ¬ ∃ (calls : List (Option Nat)) (l : List String) (err : Option String),
        AllPages () emptyFetch 1 = some (calls, some l, err) := by
  refine ⟨rfl, ?_⟩
  rintro ⟨calls, l, err, h⟩
  have h2 : (some ([(none : Option Nat)], (none : GoSlice String), none) :
      Option (List (Option Nat) × GoSlice String × Option String)) =
      some (calls, some l, err) := h
  simp at h2

/-- Claim C3 (amended): when the first fetch call returns an empty item
sequence, an absent or zero-valued next-token, and no error, `AllPages`
returns no error and an empty accumulated sequence — which is the nil slice,
not a non-nil empty collection. -/
theorem allPages_zero_pages {T Token E Ctx : Type}
    [DecidableEq Token] [Inhabited Token]
    (fetchPage : Ctx → Nat → Option Token → PageResult T Token E) (ctx : Ctx)
    (fuel : Nat) (hfuel : 0 < fuel)
    (hitems : elems (fetchPage ctx 0 (none : Option Token)).items = [])
    (he : (fetchPage ctx 0 (none : Option Token)).err = none)
    (ht : (fetchPage ctx 0 (none : Option Token)).newToken = none ∨
      ∃ t, (fetchPage ctx 0 (none : Option Token)).newToken = some t ∧
        IsZero t = true) :
    AllPages ctx fetchPage fuel =
      some ([(none : Option Token)], (none : GoSlice T), none) := by
  cases fuel with
  | zero => omega
  | succ fuel =>
    have h := allPagesLoop_stop_step fetchPage ctx fuel 0 none none he ht
    rw [hitems] at h
    exact h

/-- Witness for C3 (amended): the concrete empty fetch yields the nil slice
and no error from a single call. -/
theorem allPages_zero_pages_witness :
    AllPages () emptyFetch 1 =
      some ([(none : Option Nat)], (none : GoSlice String), none) :=
  allPages_zero_pages emptyFetch () 1 (by decide) rfl rfl (Or.inl rfl)

/-- Claim C4: an error-free terminating run of `AllPages` returns exactly
the concatenation, in call order, of the item lists the successive fetch
calls returned, keeping each page's within-page order. -/
theorem allPages_concatenation {T Token E Ctx : Type}
    [DecidableEq Token] [Inhabited Token]
    (fetchPage : Ctx → Nat → Option Token → PageResult T Token E) (ctx : Ctx)
    (fuel : Nat) (calls : List (Option Token)) (res : GoSlice T)
    (h : AllPages ctx fetchPage fuel = some (calls, res, none)) :
    elems res = (pageItems fetchPage ctx 0 calls).flatten := by
  have := allPagesLoop_ok_elems fetchPage ctx fuel 0 none none calls res h
  simpa [elems] using this

/-- Witness for C4: the two-page fetch (pages `["a","b"]` then `["c","d"]`)
aggregates to exactly `["a","b","c","d"]`, the concatenation of its pages. -/
theorem allPages_concatenation_witness :
    elems (some ["a", "b", "c", "d"] : GoSlice String) =
      (pageItems twoPageFetch () 0 [none, some 1]).flatten :=
  allPages_concatenation twoPageFetch () 2 [none, some 1]
    (some ["a", "b", "c", "d"]) rfl

/-- Claim C5: token-passing invariant of the fetch-call sequence: the first
call receives an absent token; every later call receives exactly the
next-token of the call before it, which is then present and non-zero; hence
no call ever receives a present but zero-valued token. -/
theorem allPages_token_invariant {T Token E Ctx : Type}
    [DecidableEq Token] [Inhabited Token]
    (fetchPage : Ctx → Nat → Option Token → PageResult T Token E) (ctx : Ctx)
    (fuel : Nat) (calls : List (Option Token)) (res : GoSlice T) (err : Option E)
    (h : AllPages ctx fetchPage fuel = some (calls, res, err)) :
    calls.head? = some (none : Option Token) ∧
    (∀ (j : Nat) (t1 t2 : Option Token), calls[j]? = some t1 →
      calls[j + 1]? = some t2 →
      ∃ t, t2 = some t ∧ IsZero t = false ∧
        (fetchPage ctx j t1).newToken = some t) ∧
    (∀ (j : Nat) (t : Token), calls[j]? = some (some t) → IsZero t = false) := by
  obtain ⟨hhead, hpairs⟩ :=
    allPagesLoop_calls_spec fetchPage ctx fuel 0 none none calls res err h
  have hpairs0 : ∀ (j : Nat) (t1 t2 : Option Token), calls[j]? = some t1 →
      calls[j + 1]? = some t2 →
      ∃ t, t2 = some t ∧ IsZero t = false ∧
        (fetchPage ctx j t1).newToken = some t := by
    intro j t1 t2 h1 h2
    simpa using hpairs j t1 t2 h1 h2
  refine ⟨hhead, hpairs0, ?_⟩
  intro j t hj
  cases j with
  | zero =>
    rw [← List.head?_eq_getElem?] at hj
    rw [hhead] at hj
    simp at hj
  | succ j =>
    have hlt : j + 1 < calls.length := by
      by_contra hge
      rw [List.getElem?_eq_none (by omega)] at hj
      simp at hj
    have hj' : j < calls.length := by omega
    have hprev : calls[j]? = some calls[j] := List.getElem?_eq_getElem hj'
    obtain ⟨t', ht2, hz, -⟩ := hpairs0 j calls[j] (some t) hprev hj
    obtain rfl : t' = t := by
      have := ht2.symm
      simpa using this
    exact hz

/-- Witness for C5: on the two-page fetch run with trace `[none, some 1]`,
the second call received exactly the first call's next-token `1`, which is
present and non-zero. -/
theorem allPages_token_invariant_witness :
    ∃ t, (some 1 : Option Nat) = some t ∧ IsZero t = false ∧
      (twoPageFetch () 0 (none : Option Nat)).newToken = some t :=
  (allPages_token_invariant twoPageFetch () 2 [none, some 1]
    (some ["a", "b", "c", "d"]) none (by rfl)).2.1 0 none (some 1) rfl rfl

namespace Grab

/-- Concrete fetch function that always reports a present, non-zero
next-token, so pagination never terminates. -/
def neverStopFetch : Unit → Nat → Option Nat → PageResult String Nat String :=
  fun _ _ _ => ⟨none, some 1, none⟩

/-- If some call within the next `N` of the trajectory is terminal, the loop
finishes within `N` iterations. -/
theorem allPagesLoop_terminates {T Token E Ctx : Type}
    [DecidableEq Token] [Inhabited Token]
    (fetchPage : Ctx → Nat → Option Token → PageResult T Token E) (ctx : Ctx) :
    ∀ (N i : Nat) (acc : GoSlice T),
      (∃ k, k < N ∧ terminalAt fetchPage ctx (i + k) = true) →
      ∃ out, allPagesLoop fetchPage ctx N i (trajTok fetchPage ctx i) acc =
        some out := by
  intro N
  induction N with
  | zero =>
    intro i acc h
    obtain ⟨k, hk, -⟩ := h
    omega
  | succ N ih =>
    intro i acc hterm
    cases herr : (fetchPage ctx i (trajTok fetchPage ctx i)).err with
    | some e =>
      exact ⟨_, allPagesLoop_err_step fetchPage ctx N i
        (trajTok fetchPage ctx i) acc e herr⟩
    | none =>
      cases ht : (fetchPage ctx i (trajTok fetchPage ctx i)).newToken with
      | none =>
        exact ⟨_, allPagesLoop_stop_step fetchPage ctx N i
          (trajTok fetchPage ctx i) acc herr (Or.inl ht)⟩
      | some t =>
        cases hz : IsZero t with
        | true =>
          exact ⟨_, allPagesLoop_stop_step fetchPage ctx N i
            (trajTok fetchPage ctx i) acc herr (Or.inr ⟨t, ht, hz⟩)⟩
        | false =>
          have hnotterm : terminalAt fetchPage ctx i = false := by
            simp [terminalAt, herr, ht, hz]
          obtain ⟨k, hk, hterm_k⟩ := hterm
          cases k with
          | zero =>
            rw [Nat.add_zero] at hterm_k
            rw [hnotterm] at hterm_k
            exact absurd hterm_k (by simp)
          | succ k =>
            have htraj : trajTok fetchPage ctx (i + 1) = some t := by
              simp [trajTok, ht]
            obtain ⟨out, hout⟩ := ih (i + 1)
              (goAppend acc (elems (fetchPage ctx i (trajTok fetchPage ctx i)).items))
              ⟨k, by omega, by
                have : i + 1 + k = i + (k + 1) := by omega
                rw [this]; exact hterm_k⟩
            rw [htraj] at hout
            refine ⟨((trajTok fetchPage ctx i) :: out.1, out.2.1, out.2.2), ?_⟩
            rw [allPagesLoop_continue_step fetchPage ctx N i
              (trajTok fetchPage ctx i) acc t herr ht hz, hout]
            rfl

/-- If no call of the trajectory is ever terminal, the loop exhausts any
amount of fuel: no built-in bound stops it. -/
theorem allPagesLoop_diverges {T Token E Ctx : Type}
    [DecidableEq Token] [Inhabited Token]
    (fetchPage : Ctx → Nat → Option Token → PageResult T Token E) (ctx : Ctx)
    (hnever : ∀ k, terminalAt fetchPage ctx k = false) :
    ∀ (fuel i : Nat) (acc : GoSlice T),
      allPagesLoop fetchPage ctx fuel i (trajTok fetchPage ctx i) acc = none := by
  intro fuel
  induction fuel with
  | zero => intro i acc; simp [allPagesLoop]
  | succ fuel ih =>
    intro i acc
    cases herr : (fetchPage ctx i (trajTok fetchPage ctx i)).err with
    | some e => exact absurd (hnever i) (by simp [terminalAt, herr])
    | none =>
      cases ht : (fetchPage ctx i (trajTok fetchPage ctx i)).newToken with
      | none => exact absurd (hnever i) (by simp [terminalAt, herr, ht])
      | some t =>
        cases hz : IsZero t with
        | true => exact absurd (hnever i) (by simp [terminalAt, herr, ht, hz])
        | false =>
          rw [allPagesLoop_continue_step fetchPage ctx fuel i
            (trajTok fetchPage ctx i) acc t herr ht hz]
          have htraj : trajTok fetchPage ctx (i + 1) = some t := by
            simp [trajTok, ht]
          rw [← htraj, ih (i + 1)
            (goAppend acc (elems (fetchPage ctx i (trajTok fetchPage ctx i)).items))]
          rfl

end Grab

/-- Claim C6: `AllPages` terminates for every fetch function some call of
whose first `N` is terminal (errors, or yields an absent or zero-valued
next-token) — fuel `N` suffices; and the loop has no built-in bound: absent
that precondition it exhausts every amount of fuel. -/
theorem allPages_termination {T Token E Ctx : Type}
    [DecidableEq Token] [Inhabited Token]
    (fetchPage : Ctx → Nat → Option Token → PageResult T Token E) (ctx : Ctx) :
    (∀ N : Nat, (∃ k, k < N ∧ terminalAt fetchPage ctx k = true) →
      ∃ out, AllPages ctx fetchPage N = some out) ∧
    ((∀ k, terminalAt fetchPage ctx k = false) →
      ∀ fuel : Nat, AllPages ctx fetchPage fuel = none) := by
  constructor
  · intro N hterm
    have h := allPagesLoop_terminates fetchPage ctx N 0 none (by simpa using hterm)
    simpa [AllPages, trajTok] using h
  · intro hnever fuel
    have h := allPagesLoop_diverges fetchPage ctx hnever fuel 0 none
    simpa [AllPages, trajTok] using h

/-- Witness for C6: a fetch whose first call is already terminal finishes
within fuel 1, and the never-terminating fetch exhausts any fuel, e.g. 5. -/
theorem allPages_termination_witness :
    (∃ out, AllPages () emptyFetch 1 = some out) ∧
      AllPages () neverStopFetch 5 = none := by
  have h1 := (allPages_termination emptyFetch ()).1 1 ⟨0, by omega, rfl⟩
  have h2 := (allPages_termination neverStopFetch ()).2 (fun _ => rfl) 5
  exact ⟨h1, h2⟩

/-- Claim C9: `FirstNonZero` returns the leftmost element differing from the
zero value, scanning left to right, and the zero value when the list is
empty or every element is zero-valued. -/
theorem firstNonZero_spec {T : Type} [DecidableEq T] [Inhabited T]
    (l : List T) :
    ((∀ x ∈ l, x = (default : T)) → FirstNonZero l = (default : T)) ∧
    (∀ (i : Nat) (x : T), l[i]? = some x → x ≠ (default : T) →
      (∀ (j : Nat) (y : T), j < i → l[j]? = some y → y = (default : T)) →
      FirstNonZero l = x) := by
  induction l with
  | nil =>
    refine ⟨fun _ => rfl, ?_⟩
    intro i x hget
    simp at hget
  | cons e rest ih =>
    constructor
    · intro hall
      have he : e = (default : T) := hall e (by simp)
      have : FirstNonZero (e :: rest) = FirstNonZero rest := by
        simp [FirstNonZero, he]
      rw [this]
      exact ih.1 (fun x hx => hall x (by simp [hx]))
    · intro i x hget hx hprior
      cases i with
      | zero =>
        have he : e = x := by simpa using hget
        subst he
        simp [FirstNonZero, hx]
      | succ i =>
        have he : e = (default : T) := by
          have h0 : (e :: rest)[0]? = some e := by simp
          exact hprior 0 e (by omega) h0
        have hstep : FirstNonZero (e :: rest) = FirstNonZero rest := by
          simp [FirstNonZero, he]
        rw [hstep]
        refine ih.2 i x (by simpa using hget) hx ?_
        intro j y hj hy
        exact hprior (j + 1) y (by omega) (by simpa using hy)

/-- Witness for C9: on `["", "selected", ""]` the first non-zero element,
`"selected"`, is selected; the empty list yields the zero value `""`. -/
theorem firstNonZero_spec_witness :
    FirstNonZero ["", "selected", ""] = "selected" ∧
      FirstNonZero ([] : List String) = "" := by
  constructor
  · refine (firstNonZero_spec ["", "selected", ""]).2 1 "selected" rfl
      (by decide) ?_
    intro j y hj hy
    cases j with
    | zero =>
      have h0 : (["", "selected", ""] : List String)[0]? = some "" := by simp
      rw [h0] at hy
      exact (Option.some.inj hy).symm
    | succ j => exact absurd hj (by omega)
  · exact (firstNonZero_spec ([] : List String)).1 (by simp)

namespace Grab

/-- Folding Go appends of single transformed elements over a list
concatenates its mapped image to the starting accumulator. -/
theorem elems_map_foldl {T F : Type} (fn : T → F) :
    ∀ (l : List T) (acc : GoSlice F),
      elems (l.foldl (fun result item => goAppend result [fn item]) acc) =
        elems acc ++ l.map fn := by
  intro l
  induction l with
  | nil => intro acc; simp
  | cons e rest ih =>
    intro acc
    rw [List.foldl_cons, ih (goAppend acc [fn e]), elems_goAppend]
    simp

end Grab

/-- Claim C10, counterexample: for the empty input slice, `Map` returns the
nil slice, not an empty non-nil sequence as the claim states. -/
theorem map_empty_counterexample :
    Map (some ([] : List Nat)) (fun n => n + 1) = none ∧
    ¬ ∃ l : List Nat, Map (some ([] : List Nat)) (fun n => n + 1) = some l := by
  refine ⟨rfl, ?_⟩
  rintro ⟨l, h⟩
  have h2 : (none : GoSlice Nat) = some l := h
  simp at h2

/-- Claim C10 (amended): `Map` returns a sequence of the same length whose
`i`-th element is `fn` of the input's `i`-th element, preserving order; for
an empty input the output is empty — the nil slice, not a non-nil one. -/
theorem map_spec {T F : Type} (items : GoSlice T) (fn : T → F) :
    elems (Map items fn) = (elems items).map fn ∧
    (elems (Map items fn)).length = (elems items).length ∧
    (∀ i : Nat, (elems (Map items fn))[i]? = Option.map fn (elems items)[i]?) ∧
    (elems items = [] → Map items fn = none) := by
  have hmain : elems (Map items fn) = (elems items).map fn := by
    rw [Map, elems_map_foldl fn (elems items) none]
    rfl
  refine ⟨hmain, ?_, ?_, ?_⟩
  · rw [hmain, List.length_map]
  · intro i
    rw [hmain, List.getElem?_map]
  · intro h
    rw [Map, h]
    rfl

/-- Witness for C10: mapping doubling over `[1, 2, 3]` yields elements
`[2, 4, 6]`, and mapping over the empty slice yields the nil slice. -/
theorem map_spec_witness :
    elems (Map (some [1, 2, 3] : GoSlice Nat) (fun n => n * 2)) = [2, 4, 6] ∧
      Map (some ([] : List Nat)) (fun n => n * 2) = none := by
  constructor
  · rw [(map_spec (some [1, 2, 3] : GoSlice Nat) (fun n => n * 2)).1]
    rfl
  · exact (map_spec (some ([] : List Nat)) (fun n => n * 2)).2.2.2 rfl
